import Mathlib

/-!
# Robust estimators: median, IQR, MAD

Shallow embedding of the estimator functions `compute_median`, `compute_iqr`
and `compute_mad` from the notebook
`4 Robust Statistics and Non-Linear Methods/4.2.ipynb`, together with proofs
of the specified properties.

Values are modelled as rationals (`ℚ`); pandas `Series` become `List ℚ`.
`Series.sort_values()` is modelled as an ascending sort; positional access
`iloc[i]` is modelled with Python semantics (a negative index counts from the
end, and an out-of-range access raises, modelled as `Except.error`).
-/

namespace Robust

/-- The runtime failure produced by an out-of-range positional access
(`iloc`), as pandas raises `IndexError`.  This is the only failure the
embedded code can produce. -/
inductive Err where
  | indexError
deriving DecidableEq, Repr

/-- `a.sort_values()`: sort the values ascending. -/
def sortValues (a : List ℚ) : List ℚ :=
  List.insertionSort (· ≤ ·) a

/-- `a.iloc[i]` with Python positional-index semantics: a negative `i`
counts from the end (`i + len(a)`); any index that is still out of range
raises `IndexError`. -/
def iloc (a : List ℚ) (i : Int) : Except Err ℚ :=
  let j : Int := if i < 0 then i + a.length else i
  if 0 ≤ j ∧ j < (a.length : Int) then Except.ok (a.getD j.toNat 0)
  else Except.error Err.indexError

/-- `compute_median(a)` from the notebook:

    def compute_median(a):
        sorted_a = a.sort_values()
        idx = len(sorted_a) // 2
        if len(a)%2 == 1:
            median = sorted_a.iloc[idx]
        else:
            median = (sorted_a.iloc[idx-1] + sorted_a.iloc[idx]) / 2
        return float(median)

(the final `float` cast is the identity on our exact rationals). -/
def compute_median (a : List ℚ) : Except Err ℚ := do
  let sorted_a := sortValues a
  let idx : Nat := sorted_a.length / 2
  if a.length % 2 = 1 then
    iloc sorted_a idx
  else
    let x ← iloc sorted_a ((idx : Int) - 1)
    let y ← iloc sorted_a idx
    pure ((x + y) / 2)

/-- `compute_iqr(a)` from the notebook:

    def compute_iqr(a):
        sorted_a = a.sort_values()
        idx = len(sorted_a) // 2
        if len(a)%2 == 1:
            q1 = compute_median(sorted_a.iloc[:idx])
            q3 = compute_median(sorted_a.iloc[idx+1:])
        else:
            q1 = compute_median(sorted_a.iloc[:idx])
            q3 = compute_median(sorted_a.iloc[idx:])
        return q3 - q1

Slices with non-negative bounds are `List.take` / `List.drop`. -/
def compute_iqr (a : List ℚ) : Except Err ℚ := do
  let sorted_a := sortValues a
  let idx : Nat := sorted_a.length / 2
  if a.length % 2 = 1 then
    let q1 ← compute_median (sorted_a.take idx)
    let q3 ← compute_median (sorted_a.drop (idx + 1))
    pure (q3 - q1)
  else
    let q1 ← compute_median (sorted_a.take idx)
    let q3 ← compute_median (sorted_a.drop idx)
    pure (q3 - q1)

/-- `compute_mad(a)` from the notebook:

    def compute_mad(a):
        median = compute_median(a)
        deviations = abs(a - median)
        return compute_median(deviations)
-/
def compute_mad (a : List ℚ) : Except Err ℚ := do
  let median ← compute_median a
  let deviations := a.map (fun x => |x - median|)
  compute_median deviations

/-- The spec's description of the median (§4.1): sort ascending, let
`idx = n // 2`; if `n` is odd the result is `sorted[idx]`, if `n` is even it
is `(sorted[idx-1] + sorted[idx]) / 2`.  Total function on lists, meaningful
for non-empty input (out-of-range reads default to `0`, which the refinement
theorems show never happens for non-empty input). -/
def median_spec (l : List ℚ) : ℚ :=
  let s := sortValues l
  let idx := l.length / 2
  if l.length % 2 = 1 then s.getD idx 0
  else (s.getD (idx - 1) 0 + s.getD idx 0) / 2

/-- The spec's description of the IQR (§4.2): sort ascending, `idx = n // 2`;
for odd `n`, `q1 = median(sorted[0:idx])` and `q3 = median(sorted[idx+1:n])`
(middle element excluded from both halves); for even `n`,
`q1 = median(sorted[0:idx])` and `q3 = median(sorted[idx:n])`; the result is
`q3 - q1`. -/
def iqr_spec (l : List ℚ) : ℚ :=
  let s := sortValues l
  let idx := l.length / 2
  if l.length % 2 = 1 then
    median_spec (s.drop (idx + 1)) - median_spec (s.take idx)
  else
    median_spec (s.drop idx) - median_spec (s.take idx)

/-! ## Basic lemmas about the embedding -/

theorem error_bind (e : Err) (f : ℚ → Except Err ℚ) :
    (Except.error e : Except Err ℚ) >>= f = Except.error e := rfl

theorem ok_bind (x : ℚ) (f : ℚ → Except Err ℚ) :
    (Except.ok x : Except Err ℚ) >>= f = f x := rfl

theorem pure_eq_ok (x : ℚ) : (pure x : Except Err ℚ) = Except.ok x := rfl

theorem length_sortValues (a : List ℚ) : (sortValues a).length = a.length :=
  List.length_insertionSort _ a

theorem sorted_sortValues (a : List ℚ) : List.Sorted (· ≤ ·) (sortValues a) :=
  List.sorted_insertionSort _ a

theorem perm_sortValues (a : List ℚ) : List.Perm (sortValues a) a :=
  List.perm_insertionSort _ a

/-- A non-negative in-range index reads the corresponding element. -/
theorem iloc_natCast (a : List ℚ) (i : Nat) (h : i < a.length) :
    iloc a (i : Int) = Except.ok (a.getD i 0) := by
  unfold iloc
  have h0 : ¬ ((i : Int) < 0) := by omega
  rw [if_neg h0]
  rw [if_pos (by constructor <;> omega)]
  simp

/-- The index `idx - 1` (as an integer) for `1 ≤ idx ≤ len` reads element
`idx - 1`. -/
theorem iloc_natCast_sub_one (a : List ℚ) (i : Nat) (h1 : 1 ≤ i)
    (h2 : i ≤ a.length) : iloc a ((i : Int) - 1) = Except.ok (a.getD (i - 1) 0) := by
  unfold iloc
  have h0 : ¬ ((i : Int) - 1 < 0) := by omega
  rw [if_neg h0]
  rw [if_pos (by constructor <;> omega)]
  have : ((i : Int) - 1).toNat = i - 1 := by omega
  rw [this]

/-- `compute_median` refines the spec's description of the median: on any
non-empty input it succeeds and returns `median_spec`. -/
theorem compute_median_eq (a : List ℚ) (h : a ≠ []) :
    compute_median a = Except.ok (median_spec a) := by
  have hn : 0 < a.length := List.length_pos.mpr h
  have hlen : (sortValues a).length = a.length := length_sortValues a
  rw [compute_median, median_spec]
  by_cases hodd : a.length % 2 = 1
  · rw [if_pos hodd, if_pos hodd]
    rw [iloc_natCast _ _ (by rw [hlen]; exact Nat.div_lt_self hn (by omega))]
    rw [hlen]
  · rw [if_neg hodd, if_neg hodd]
    have h2 : 2 ≤ a.length := by omega
    have hidx : 1 ≤ (sortValues a).length / 2 := by omega
    rw [iloc_natCast_sub_one _ _ hidx (Nat.div_le_self _ _)]
    rw [ok_bind]
    rw [iloc_natCast _ _ (Nat.div_lt_self (by omega) (by omega))]
    rw [ok_bind, pure_eq_ok, hlen]

/-- The spec-level median of a non-empty list lies between two members of
the list: there are `x, y ∈ l` with `x ≤ median_spec l ≤ y`. -/
theorem median_spec_between (l : List ℚ) (h : l ≠ []) :
    ∃ x ∈ l, ∃ y ∈ l, x ≤ median_spec l ∧ median_spec l ≤ y := by
  have hn : 0 < l.length := List.length_pos.mpr h
  have hlen := length_sortValues l
  have hsort := sorted_sortValues l
  have hperm := perm_sortValues l
  rw [median_spec]
  by_cases hodd : l.length % 2 = 1
  · rw [if_pos hodd]
    have hi : l.length / 2 < (sortValues l).length := by omega
    rw [List.getD_eq_getElem _ 0 hi]
    exact ⟨_, hperm.subset (List.getElem_mem hi), _,
      hperm.subset (List.getElem_mem hi), le_refl _, le_refl _⟩
  · rw [if_neg hodd]
    have h2 : 2 ≤ l.length := by omega
    have hi1 : l.length / 2 - 1 < (sortValues l).length := by omega
    have hi2 : l.length / 2 < (sortValues l).length := by omega
    rw [List.getD_eq_getElem _ 0 hi1, List.getD_eq_getElem _ 0 hi2]
    have hab : (sortValues l)[l.length / 2 - 1] ≤ (sortValues l)[l.length / 2] := by
      have := hsort.rel_get_of_le (a := ⟨_, hi1⟩) (b := ⟨_, hi2⟩)
        (Fin.mk_le_mk.mpr (by omega))
      simpa using this
    exact ⟨_, hperm.subset (List.getElem_mem hi1), _,
      hperm.subset (List.getElem_mem hi2), by linarith, by linarith⟩

/-- The spec-level median of a non-empty list of non-negative values is
non-negative. -/
theorem median_spec_nonneg (l : List ℚ) (h : l ≠ []) (hpos : ∀ x ∈ l, 0 ≤ x) :
    0 ≤ median_spec l := by
  obtain ⟨x, hx, _, _, hxm, _⟩ := median_spec_between l h
  exact le_trans (hpos x hx) hxm

/-- `compute_iqr` refines the spec's description of the IQR: on any input of
length at least two it succeeds and returns `iqr_spec`. -/
theorem compute_iqr_eq (a : List ℚ) (h2 : 2 ≤ a.length) :
    compute_iqr a = Except.ok (iqr_spec a) := by
  have hlen := length_sortValues a
  rw [compute_iqr, iqr_spec, hlen]
  have htake : (sortValues a).take (a.length / 2) ≠ [] := by
    apply List.ne_nil_of_length_pos
    rw [List.length_take]
    omega
  by_cases hodd : a.length % 2 = 1
  · rw [if_pos hodd, if_pos hodd]
    have hdrop : (sortValues a).drop (a.length / 2 + 1) ≠ [] := by
      apply List.ne_nil_of_length_pos
      rw [List.length_drop]
      omega
    rw [compute_median_eq _ htake, ok_bind, compute_median_eq _ hdrop, ok_bind,
      pure_eq_ok]
  · rw [if_neg hodd, if_neg hodd]
    have hdrop : (sortValues a).drop (a.length / 2) ≠ [] := by
      apply List.ne_nil_of_length_pos
      rw [List.length_drop]
      omega
    rw [compute_median_eq _ htake, ok_bind, compute_median_eq _ hdrop, ok_bind,
      pure_eq_ok]

/-- `compute_mad` refines the spec's description of the MAD: on any
non-empty input it succeeds and returns the spec-level median of the
absolute deviations from the spec-level median. -/
theorem compute_mad_eq (a : List ℚ) (h : a ≠ []) :
    compute_mad a = Except.ok (median_spec (a.map fun x => |x - median_spec a|)) := by
  rw [compute_mad, compute_median_eq a h, ok_bind]
  refine compute_median_eq _ ?_
  intro hc
  exact h (List.map_eq_nil_iff.mp hc)

/-- In the sorted list, every member of the lower half precedes every member
of the upper half, so the upper split-median dominates the lower one:
`iqr_spec` is non-negative for inputs of length at least two. -/
theorem iqr_spec_nonneg (a : List ℚ) (h2 : 2 ≤ a.length) : 0 ≤ iqr_spec a := by
  have hlen := length_sortValues a
  have hsort := sorted_sortValues a
  rw [iqr_spec]
  have htake : (sortValues a).take (a.length / 2) ≠ [] := by
    apply List.ne_nil_of_length_pos
    rw [List.length_take]
    omega
  by_cases hodd : a.length % 2 = 1
  · rw [if_pos hodd]
    have hdrop : (sortValues a).drop (a.length / 2 + 1) ≠ [] := by
      apply List.ne_nil_of_length_pos
      rw [List.length_drop]
      omega
    obtain ⟨_, _, y, hy, _, hmy⟩ := median_spec_between _ htake
    obtain ⟨u, hu, _, _, hum, _⟩ := median_spec_between _ hdrop
    have hu2 : u ∈ (sortValues a).drop (a.length / 2) := by
      have hdd : (sortValues a).drop (a.length / 2 + 1)
          = ((sortValues a).drop (a.length / 2)).drop 1 := by
        rw [List.drop_drop, Nat.add_comm]
      exact List.drop_subset _ _ (hdd ▸ hu)
    have hyu : y ≤ u := hsort.rel_of_mem_take_of_mem_drop hy hu2
    linarith
  · rw [if_neg hodd]
    have hdrop : (sortValues a).drop (a.length / 2) ≠ [] := by
      apply List.ne_nil_of_length_pos
      rw [List.length_drop]
      omega
    obtain ⟨_, _, y, hy, _, hmy⟩ := median_spec_between _ htake
    obtain ⟨u, hu, _, _, hum, _⟩ := median_spec_between _ hdrop
    have hyu : y ≤ u := hsort.rel_of_mem_take_of_mem_drop hy hu
    linarith

/-! ## Claims -/

/-- C1: for every non-empty sequence, `compute_median` succeeds and returns
exactly the spec's sort-and-index value: with `idx = n / 2`, the element at
position `idx` when `n` is odd and the average of the two middle elements
`(sorted[idx-1] + sorted[idx]) / 2` when `n` is even. -/
theorem median_matches_spec (S : List ℚ) (h : S ≠ []) :
    compute_median S = Except.ok (median_spec S) :=
  compute_median_eq S h

theorem median_matches_spec_witness :
    ([(1 : ℚ), 2, 3] ≠ []) ∧
      compute_median [(1 : ℚ), 2, 3] = Except.ok (median_spec [(1 : ℚ), 2, 3]) :=
  ⟨by simp, median_matches_spec [(1 : ℚ), 2, 3] (by simp)⟩

/-- C2: for every sequence of length at least two, `compute_iqr` succeeds and
returns exactly the spec's split-then-median value: with `idx = n / 2`, for
odd `n` the middle element is excluded from both halves
(`q1 = median(sorted[0:idx])`, `q3 = median(sorted[idx+1:n])`) and for even
`n` the list is split exactly in half, with result `q3 - q1`. -/
theorem iqr_matches_spec (S : List ℚ) (h : 2 ≤ S.length) :
    compute_iqr S = Except.ok (iqr_spec S) :=
  compute_iqr_eq S h

theorem iqr_matches_spec_witness :
    (2 ≤ ([(1 : ℚ), 2, 3, 4] : List ℚ).length) ∧
      compute_iqr [(1 : ℚ), 2, 3, 4] = Except.ok (iqr_spec [(1 : ℚ), 2, 3, 4]) :=
  ⟨by simp, iqr_matches_spec [(1 : ℚ), 2, 3, 4] (by simp)⟩

/-- C3: for every non-empty sequence, `compute_mad` succeeds and equals the
median of the absolute deviations of the elements from the sequence's own
median, with no scaling factor applied. -/
theorem mad_is_median_abs_deviations (S : List ℚ) (h : S ≠ []) :
    compute_mad S = Except.ok (median_spec (S.map fun x => |x - median_spec S|)) :=
  compute_mad_eq S h

theorem mad_is_median_abs_deviations_witness :
    ([(1 : ℚ), 2, 3] ≠ []) ∧
      compute_mad [(1 : ℚ), 2, 3]
        = Except.ok (median_spec ([(1 : ℚ), 2, 3].map
            fun x => |x - median_spec [(1 : ℚ), 2, 3]|)) :=
  ⟨by simp, mad_is_median_abs_deviations [(1 : ℚ), 2, 3] (by simp)⟩

/-- C4: on the empty input sequence all three operations fail with the
embedded error value (the out-of-range positional access raised by the
inner median) instead of returning a sentinel result. -/
theorem empty_input_errors :
    compute_median ([] : List ℚ) = Except.error Err.indexError ∧
      compute_iqr ([] : List ℚ) = Except.error Err.indexError ∧
      compute_mad ([] : List ℚ) = Except.error Err.indexError :=
  ⟨rfl, rfl, rfl⟩

/-- C5 counterexample: on the single-element sequence `[7]`, `compute_iqr`
does not return `0`; it fails with the index error raised by the inner
median applied to the empty lower half. -/
theorem iqr_singleton_not_zero :
    compute_iqr [(7 : ℚ)] = Except.error Err.indexError ∧
      compute_iqr [(7 : ℚ)] ≠ Except.ok 0 := by
  refine ⟨rfl, ?_⟩
  intro hc
  exact Except.noConfusion hc

/-- C5 amended: for every single-element sequence `[x]`, `compute_iqr` fails
with the index error: `idx = 0` and `n` odd route `q1` through the median of
the empty slice `sorted[0:0]`, which raises. -/
theorem iqr_singleton_errors (x : ℚ) :
    compute_iqr [x] = Except.error Err.indexError := by
  simp [compute_iqr, compute_median, sortValues, iloc, error_bind]

/-- C6 counterexample: on the length-one sequence `[5]`, `compute_iqr` does
not return any non-negative value; it fails with an index error, so the
claim does not extend to all sequences with at least one element. -/
theorem iqr_nonneg_fails_on_singleton :
    ¬ ∃ r : ℚ, compute_iqr [(5 : ℚ)] = Except.ok r ∧ 0 ≤ r := by
  rintro ⟨r, hr, -⟩
  exact Except.noConfusion hr

/-- C6 amended: for every sequence of length at least two, `compute_iqr`
succeeds and its result is non-negative (the upper split-median dominates
the lower split-median by construction of the split). -/
theorem iqr_nonneg_of_two_le (S : List ℚ) (h : 2 ≤ S.length) :
    ∃ r : ℚ, compute_iqr S = Except.ok r ∧ 0 ≤ r :=
  ⟨iqr_spec S, compute_iqr_eq S h, iqr_spec_nonneg S h⟩

theorem iqr_nonneg_of_two_le_witness :
    (2 ≤ ([(3 : ℚ), 1, 2, 5] : List ℚ).length) ∧
      ∃ r : ℚ, compute_iqr [(3 : ℚ), 1, 2, 5] = Except.ok r ∧ 0 ≤ r :=
  ⟨by simp, iqr_nonneg_of_two_le [(3 : ℚ), 1, 2, 5] (by simp)⟩

/-- C7: for every non-empty sequence, `compute_mad` succeeds and its result
is non-negative: the absolute deviations are non-negative and the median of
non-negative values is non-negative. -/
theorem mad_nonneg (S : List ℚ) (h : S ≠ []) :
    ∃ r : ℚ, compute_mad S = Except.ok r ∧ 0 ≤ r := by
  refine ⟨_, compute_mad_eq S h, ?_⟩
  apply median_spec_nonneg
  · intro hc
    exact h (List.map_eq_nil_iff.mp hc)
  · intro x hx
    obtain ⟨v, _, rfl⟩ := List.mem_map.mp hx
    exact abs_nonneg _

theorem mad_nonneg_witness :
    ([(4 : ℚ), 1, 9] ≠ []) ∧
      ∃ r : ℚ, compute_mad [(4 : ℚ), 1, 9] = Except.ok r ∧ 0 ≤ r :=
  ⟨by simp, mad_nonneg [(4 : ℚ), 1, 9] (by simp)⟩

/-- C8: `compute_median` is invariant under any permutation of the input
elements: permuted inputs sort to the same list and have the same length,
so every step of the computation coincides. -/
theorem median_perm_invariant (S T : List ℚ) (hp : List.Perm S T) (h : S ≠ []) :
    compute_median S = compute_median T := by
  have hsort : sortValues S = sortValues T :=
    List.eq_of_perm_of_sorted
      ((perm_sortValues S).trans (hp.trans (perm_sortValues T).symm))
      (sorted_sortValues S) (sorted_sortValues T)
  rw [compute_median, compute_median, hsort, hp.length_eq]

theorem median_perm_invariant_witness :
    List.Perm [(1 : ℚ), 2] [(2 : ℚ), 1] ∧ ([(1 : ℚ), 2] ≠ []) ∧
      compute_median [(1 : ℚ), 2] = compute_median [(2 : ℚ), 1] :=
  ⟨List.Perm.swap 2 1 [], by simp,
    median_perm_invariant [(1 : ℚ), 2] [(2 : ℚ), 1] (List.Perm.swap 2 1 []) (by simp)⟩

/-- C9: for every non-empty sequence, `compute_median` succeeds and the
result lies between the minimum and the maximum element of the input. -/
theorem median_between_min_max (S : List ℚ) (h : S ≠ []) :
    ∃ m : ℚ, compute_median S = Except.ok m ∧
      S.minimum ≤ (m : WithTop ℚ) ∧ (m : WithBot ℚ) ≤ S.maximum := by
  obtain ⟨x, hx, y, hy, hxm, hmy⟩ := median_spec_between S h
  refine ⟨median_spec S, compute_median_eq S h, ?_, ?_⟩
  · exact le_trans (List.minimum_le_of_mem' hx) (WithTop.coe_le_coe.mpr hxm)
  · exact le_trans (WithBot.coe_le_coe.mpr hmy) (List.le_maximum_of_mem' hy)

theorem median_between_min_max_witness :
    ([(2 : ℚ), 8, 4] ≠ []) ∧
      ∃ m : ℚ, compute_median [(2 : ℚ), 8, 4] = Except.ok m ∧
        ([(2 : ℚ), 8, 4] : List ℚ).minimum ≤ (m : WithTop ℚ) ∧
        (m : WithBot ℚ) ≤ ([(2 : ℚ), 8, 4] : List ℚ).maximum :=
  ⟨by simp, median_between_min_max [(2 : ℚ), 8, 4] (by simp)⟩

/-- C10: for every non-empty sequence, `compute_mad` succeeds without error:
the deviations list has the same length as the input, so both inner median
computations run on non-empty input and the empty-input failure branch is
unreachable. -/
theorem mad_succeeds (S : List ℚ) (h : S ≠ []) :
    ∃ r : ℚ, compute_mad S = Except.ok r :=
  ⟨_, compute_mad_eq S h⟩

theorem mad_succeeds_witness :
    ([(6 : ℚ), 5] ≠ []) ∧ ∃ r : ℚ, compute_mad [(6 : ℚ), 5] = Except.ok r :=
  ⟨by simp, mad_succeeds [(6 : ℚ), 5] (by simp)⟩

end Robust
